import Mathlib

/- Verification of the QuantEcon.applications solution notebooks.

The asset pricing notebook (markov_asset/asset_solutions_py.ipynb) prices
assets in a Lucas endowment economy driven by a finite Markov chain.  It
defines a class AssetPriceModel whose constructor stores a discount factor
beta, a MarkovChain object and a risk aversion gamma, together with derived
pricing kernels P_tilde and P_check, and three pricing functions: tree_price
and consol_price solve linear systems through numpy.linalg.solve, while
call_option runs an unbounded value iteration loop until the update error
falls within a tolerance.

The second notebook compares three implementations of a two state Markov
chain simulator: a pure Python loop, the same function passed through
numba.jit, and a Cython translation with hard coded transition parameters.

Arrays are modelled as functions out of Fin n with exact rational entries.
The risk aversion exponent is modelled as an integer so that the powers of
the state values stay inside the rationals.  numpy.linalg.solve is modelled
by its exact arithmetic contract: the value returned is the adjugate formula
solution, which is the unique solution of the linear system whenever the
matrix is nonsingular. -/

open Matrix

/-- The data stored in a quantecon MarkovChain object, as used by the asset
pricing notebook: a square transition matrix P and an array of state values
of matching length. -/
structure MarkovChain (n : ℕ) where
  P : Matrix (Fin n) (Fin n) ℚ
  state_values : Fin n → ℚ

/-- A transition matrix is stochastic when its entries are nonnegative and
every row sums to one. -/
def MarkovChain.IsStochastic {n : ℕ} (mc : MarkovChain n) : Prop :=
  (∀ x y, 0 ≤ mc.P x y) ∧ ∀ x, (∑ y, mc.P x y) = 1

/-- The AssetPriceModel class of the notebook: it stores the discount factor
beta, the Markov chain mc and the risk aversion gamma. -/
structure AssetPriceModel (n : ℕ) where
  beta : ℚ
  mc : MarkovChain n
  gamma : ℤ

/-- A model is valid when the discount factor lies strictly between zero and
one and the transition matrix is stochastic. -/
def AssetPriceModel.Valid {n : ℕ} (apm : AssetPriceModel n) : Prop :=
  0 < apm.beta ∧ apm.beta < 1 ∧ apm.mc.IsStochastic

/-- numpy broadcasting of a length n vector across an n by n matrix, as in
the expression P * y ** e of the notebook: entry (x, y) of the result is
P x y * v y, so each column y of P is scaled by v y. -/
def broadcastMul {n : ℕ} (A : Matrix (Fin n) (Fin n) ℚ) (v : Fin n → ℚ) :
    Matrix (Fin n) (Fin n) ℚ :=
  Matrix.of fun x y => A x y * v y

/-- The P_tilde property of AssetPriceModel: the transition matrix with each
column y scaled by the state value of y raised to (1 - gamma). -/
def AssetPriceModel.P_tilde {n : ℕ} (apm : AssetPriceModel n) :
    Matrix (Fin n) (Fin n) ℚ :=
  broadcastMul apm.mc.P fun y => apm.mc.state_values y ^ (1 - apm.gamma)

/-- The P_check property of AssetPriceModel: the transition matrix with each
column y scaled by the state value of y raised to (- gamma). -/
def AssetPriceModel.P_check {n : ℕ} (apm : AssetPriceModel n) :
    Matrix (Fin n) (Fin n) ℚ :=
  broadcastMul apm.mc.P fun y => apm.mc.state_values y ^ (-apm.gamma)

/-- Exact arithmetic model of numpy.linalg.solve through the adjugate
formula.  When the matrix A is nonsingular this is the unique vector x with
A.mulVec x = b, which is the contract of the library call. -/
def solve {n : ℕ} (A : Matrix (Fin n) (Fin n) ℚ) (b : Fin n → ℚ) :
    Fin n → ℚ :=
  A.det⁻¹ • A.adjugate.mulVec b

/-- The tree_price function of the notebook: the price dividend ratio of the
Lucas tree, computed as beta times the solution of the linear system
(I - beta * P_tilde) x = P_tilde @ ones. -/
def tree_price {n : ℕ} (apm : AssetPriceModel n) : Fin n → ℚ :=
  apm.beta • solve (1 - apm.beta • apm.P_tilde) (apm.P_tilde.mulVec fun _ => 1)

/-- The consol_price function of the notebook: the price of a consol bond
with coupon zeta, computed as beta times the solution of the linear system
(I - beta * P_check) x = P_check @ (zeta * ones). -/
def consol_price {n : ℕ} (apm : AssetPriceModel n) (zeta : ℚ) : Fin n → ℚ :=
  apm.beta • solve (1 - apm.beta • apm.P_check) (apm.P_check.mulVec fun _ => zeta)

/-- The successive values of the variable w_bar inside the loop of
call_option: w_bar starts at the zero vector, and each pass through the body
replaces it with the componentwise maximum of the continuation value
beta * P_check @ w_bar and the exercise value v_bar - p_s, where v_bar is
the consol price with coupon zeta. -/
def optionIter {n : ℕ} (apm : AssetPriceModel n) (zeta p_s : ℚ) :
    ℕ → (Fin n → ℚ)
  | 0 => fun _ => 0
  | t + 1 => fun i =>
      max (apm.beta * apm.P_check.mulVec (optionIter apm zeta p_s t) i)
        (consol_price apm zeta i - p_s)

/-- np.amax of the absolute values of a vector, the form used by the
convergence test of call_option; the empty maximum is taken to be zero. -/
def amaxAbs {n : ℕ} (v : Fin n → ℚ) : ℚ :=
  Finset.univ.fold max 0 fun i => |v i|

/-- The error computed at pass t of the call_option loop: the largest
absolute componentwise difference between the current w_bar and its update. -/
def optionError {n : ℕ} (apm : AssetPriceModel n) (zeta p_s : ℚ) (t : ℕ) : ℚ :=
  amaxAbs fun i => optionIter apm zeta p_s t i - optionIter apm zeta p_s (t + 1) i

/-- The loop of call_option runs its body for t = 0, ..., N and then exits
precisely when N is the first pass whose error is within epsilon.  The body
therefore executes N + 1 times in total. -/
def stopsAt {n : ℕ} (apm : AssetPriceModel n) (zeta p_s epsilon : ℚ)
    (N : ℕ) : Prop :=
  optionError apm zeta p_s N ≤ epsilon ∧
    ∀ t < N, epsilon < optionError apm zeta p_s t

/-- The pair returned by call_option when its loop exits at pass N: the
infinite horizon price vector, which is the value of w_bar after its last
update, and the dictionary of snapshots.  A horizon t is present in the
dictionary exactly when t lies in the requested set T and the body still ran
at pass t, that is t ≤ N; the recorded value is w_bar at the start of pass
t.  Requested horizons never reached by the loop are silently absent. -/
def call_option {n : ℕ} (apm : AssetPriceModel n) (zeta p_s : ℚ)
    (T : Finset ℕ) (N : ℕ) :
    (Fin n → ℚ) × (ℕ → Option (Fin n → ℚ)) :=
  (optionIter apm zeta p_s (N + 1),
    fun t => if t ∈ T ∧ t ≤ N then some (optionIter apm zeta p_s t) else none)

/-- Raw constructor inputs as Python may receive them: the transition array
may have any rectangular shape and the state values any length. -/
structure RawMarkovChain (rows cols len : ℕ) where
  P : Matrix (Fin rows) (Fin cols) ℚ
  state_values : Fin len → ℚ

/-- A raw AssetPriceModel, holding exactly the attributes that the Python
constructor assigns. -/
structure RawAssetPriceModel (rows cols len : ℕ) where
  beta : ℚ
  mc : RawMarkovChain rows cols len
  gamma : ℤ

/-- The constructor of AssetPriceModel as written in the notebook: it stores
beta, mc and gamma unconditionally.  There is no validation of any kind and
no error path, whatever the shape of the transition array or the length of
the state values. -/
def RawAssetPriceModel.init {rows cols len : ℕ} (beta : ℚ)
    (mc : RawMarkovChain rows cols len) (gamma : ℤ) :
    RawAssetPriceModel rows cols len :=
  { beta := beta, mc := mc, gamma := gamma }

/-- The attribute n set by the constructor: the number of rows of the
transition array, mc.P.shape[0]. -/
def RawAssetPriceModel.dimN {rows cols len : ℕ}
    (_ : RawAssetPriceModel rows cols len) : ℕ :=
  rows

/-- The module level transition parameter p of the speed notebook:
probability of leaving the low state. -/
def pLow : ℚ := 1/10

/-- The module level transition parameter q of the speed notebook:
probability of leaving the high state. -/
def qHigh : ℚ := 1/5

/-- The state at index t produced by the pure Python compute_series, given
the array U of uniform draws: x starts at 1, and from state 0 the chain
moves up when U t < p while from state 1 it stays up when U t > q. -/
def compute_series_x (U : ℕ → ℚ) : ℕ → ℤ
  | 0 => 1
  | t + 1 =>
    if compute_series_x U t = 0 then (if U (t + 1) < pLow then 1 else 0)
    else (if qHigh < U (t + 1) then 1 else 0)

/-- The pure Python compute_series: the list of the first n states of the
simulated chain, for the draw sequence U. -/
def compute_series (n : ℕ) (U : ℕ → ℚ) : List ℤ :=
  (List.range n).map (compute_series_x U)

/-- Model of numba.jit: compilation preserves the meaning of the function. -/
def jit {α : Type} (f : α) : α := f

/-- The notebook defines compute_series_numba as jit applied to
compute_series. -/
def compute_series_numba : ℕ → (ℕ → ℚ) → List ℤ :=
  jit compute_series

/-- The state at index t produced by the Cython compute_series_cy, which
hard codes its own local parameters p = 0.1 and q = 0.2 and otherwise runs
the same loop. -/
def compute_series_cy_x (U : ℕ → ℚ) : ℕ → ℤ
  | 0 => 1
  | t + 1 =>
    if compute_series_cy_x U t = 0 then (if U (t + 1) < 1/10 then 1 else 0)
    else (if 1/5 < U (t + 1) then 1 else 0)

/-- The Cython compute_series_cy: the list of the first n states of the
simulated chain, for the draw sequence U. -/
def compute_series_cy (n : ℕ) (U : ℕ → ℚ) : List ℤ :=
  (List.range n).map (compute_series_cy_x U)

/-- The maximum absolute row sum of a matrix, the operator norm induced by
the maximum norm on vectors; the empty maximum is taken to be zero. -/
def maxAbsRowSum {n : ℕ} (A : Matrix (Fin n) (Fin n) ℚ) : ℚ :=
  Finset.univ.fold max 0 fun i => ∑ j, |A i j|

/-- A one state model used to exercise the pricing functions on concrete
data: sure transition, unit state value, beta one half, gamma two. -/
def m1 : AssetPriceModel 1 :=
  { beta := 1/2
    mc := { P := !![1], state_values := ![1] }
    gamma := 2 }

/-- The worked example of the notebook: five states, transition matrix
0.0125 everywhere plus 0.95 - 0.0125 added on the diagonal, state values
1.05, 1.025, 1.0, 0.975, 0.95, risk aversion 2 and discount factor 0.94. -/
def apm5 : AssetPriceModel 5 :=
  { beta := 94/100
    mc := { P := Matrix.of fun x y =>
              125/10000 + if x = y then 95/100 - 125/10000 else 0
            state_values := ![105/100, 1025/1000, 1, 975/1000, 95/100] }
    gamma := 2 }

/-- The five state model exactly as the claim describes it, with diagonal
0.9375 instead of the 0.95 that the notebook actually builds. -/
def apm5spec : AssetPriceModel 5 :=
  { beta := 94/100
    mc := { P := Matrix.of fun x y => if x = y then 9375/10000 else 125/10000
            state_values := ![105/100, 1025/1000, 1, 975/1000, 95/100] }
    gamma := 2 }

/-- The tree price values claimed for the worked example. -/
def tpTargets : Fin 5 → ℚ :=
  ![12722/1000, 14725/1000, 17571/1000, 21936/1000, 29474/1000]

/-- A two state model witnessing that a spectral radius bound on P_check
does not make the call_option loop terminate.  The transition matrix is
stochastic and the discount factor is one half, but the second state value
is negative, so P_check has columns of mixed signs. -/
def cexM : AssetPriceModel 2 :=
  { beta := 1/2
    mc := { P := !![1/2, 1/2; 3/4, 1/4], state_values := ![-1/6, 1/2] }
    gamma := 1 }

/-- The coupon used with the model cexM. -/
def cexZeta : ℚ := -33

/-- The strike used with the model cexM. -/
def cexStrike : ℚ := 73/4

/-- First point of the two cycle reached by the call_option iteration on
cexM: this is the exercise value consol price minus strike. -/
def cexLo : Fin 2 → ℚ := ![1, 12]

/-- Second point of the two cycle reached by the call_option iteration on
cexM. -/
def cexHi : Fin 2 → ℚ := ![9/2, 12]

/-- A raw chain whose first row sums to two: malformed input on which the
constructor is claimed to fail. -/
def badRowChain : RawMarkovChain 2 2 2 :=
  { P := !![1, 1; 0, 0], state_values := ![1, 1] }

/-- A raw chain with a rectangular transition array and a state value list
of mismatched length: malformed input on which the constructor is claimed
to fail. -/
def badShapeChain : RawMarkovChain 2 3 1 :=
  { P := !![1, 0, 0; 0, 1, 0], state_values := ![1] }

/- Infrastructure: bounds for the folded maximum and correctness of the
adjugate formula solver. -/

theorem amaxAbs_nonneg {n : ℕ} (v : Fin n → ℚ) : 0 ≤ amaxAbs v := by
  unfold amaxAbs
  rw [Finset.le_fold_max]
  exact Or.inl le_rfl

theorem le_amaxAbs {n : ℕ} (v : Fin n → ℚ) (i : Fin n) : |v i| ≤ amaxAbs v := by
  unfold amaxAbs
  rw [Finset.le_fold_max]
  exact Or.inr ⟨i, Finset.mem_univ i, le_rfl⟩

theorem amaxAbs_le {n : ℕ} {v : Fin n → ℚ} {K : ℚ} (h0 : 0 ≤ K)
    (h : ∀ i, |v i| ≤ K) : amaxAbs v ≤ K := by
  unfold amaxAbs
  rw [Finset.fold_max_le]
  exact ⟨h0, fun i _ => h i⟩

theorem rowSum_le_maxAbsRowSum {n : ℕ} (A : Matrix (Fin n) (Fin n) ℚ)
    (i : Fin n) : (∑ j, |A i j|) ≤ maxAbsRowSum A := by
  unfold maxAbsRowSum
  rw [Finset.le_fold_max]
  exact Or.inr ⟨i, Finset.mem_univ i, le_rfl⟩

theorem maxAbsRowSum_nonneg {n : ℕ} (A : Matrix (Fin n) (Fin n) ℚ) :
    0 ≤ maxAbsRowSum A := by
  unfold maxAbsRowSum
  rw [Finset.le_fold_max]
  exact Or.inl le_rfl

theorem solve_mulVec {n : ℕ} {A : Matrix (Fin n) (Fin n) ℚ} (hd : A.det ≠ 0)
    (b : Fin n → ℚ) : A.mulVec (solve A b) = b := by
  unfold solve
  rw [Matrix.mulVec_smul, Matrix.mulVec_mulVec, Matrix.mul_adjugate,
    Matrix.smul_mulVec_assoc, Matrix.one_mulVec, inv_smul_smul₀ hd]

theorem solve_eq_of_leftInverse {n : ℕ} {A B : Matrix (Fin n) (Fin n) ℚ}
    {x b : Fin n → ℚ} (hB : B * A = 1) (hx : A.mulVec x = b) :
    solve A b = x := by
  have hd : A.det ≠ 0 := by
    intro h
    have h1 : B.det * A.det = 1 := by rw [← Matrix.det_mul, hB, Matrix.det_one]
    rw [h, mul_zero] at h1
    exact zero_ne_one h1
  unfold solve
  rw [← hx, Matrix.mulVec_mulVec, Matrix.adjugate_mul, Matrix.smul_mulVec_assoc,
    Matrix.one_mulVec, inv_smul_smul₀ hd]

theorem solve_smul {n : ℕ} (A : Matrix (Fin n) (Fin n) ℚ) (r : ℚ)
    (b : Fin n → ℚ) : solve A (r • b) = r • solve A b := by
  unfold solve
  rw [Matrix.mulVec_smul, smul_comm]

/- Concrete facts about the one state model m1, shared by several
witnesses. -/

theorem m1_valid : m1.Valid := by
  refine ⟨by norm_num [m1], by norm_num [m1], fun x y => ?_, fun x => ?_⟩
  · fin_cases x <;> fin_cases y <;> norm_num [m1]
  · fin_cases x <;> rw [Fin.sum_univ_one] <;> norm_num [m1]

theorem m1_matrixA : (1 - m1.beta • m1.P_tilde) = !![1/2] := by
  ext i j
  fin_cases i <;> fin_cases j <;>
    norm_num [m1, AssetPriceModel.P_tilde, broadcastMul, Matrix.sub_apply,
      Matrix.one_apply, Matrix.smul_apply]

theorem m1_detA : (1 - m1.beta • m1.P_tilde).det ≠ 0 := by
  rw [m1_matrixA, Matrix.det_fin_one]
  norm_num

/-- C1: for a valid model whose matrix I - beta * P_tilde is nonsingular,
the vector returned by tree_price solves the linear system
(I - beta * P_tilde) v = beta * P_tilde @ ones. -/
theorem tree_price_solves_system {n : ℕ} (apm : AssetPriceModel n)
    (_hv : apm.Valid) (hd : (1 - apm.beta • apm.P_tilde).det ≠ 0) :
    (1 - apm.beta • apm.P_tilde).mulVec (tree_price apm) =
      apm.beta • apm.P_tilde.mulVec fun _ => 1 := by
  unfold tree_price
  rw [Matrix.mulVec_smul, solve_mulVec hd]

/-- Witness for C1 at the concrete one state model m1. -/
theorem tree_price_solves_system_witness :
    m1.Valid ∧ (1 - m1.beta • m1.P_tilde).det ≠ 0 ∧
      (1 - m1.beta • m1.P_tilde).mulVec (tree_price m1) =
        m1.beta • m1.P_tilde.mulVec fun _ => 1 :=
  ⟨m1_valid, m1_detA, tree_price_solves_system m1 m1_valid m1_detA⟩

/-- C3, counterexample: the constructor succeeds silently on malformed
input.  The first chain has a row summing to two, the second has a
rectangular transition array together with a state value list of mismatched
length; in both cases construction returns normally, stores the primitives
and sets n from the row count, and no InvalidModelError exists anywhere in
the code. -/
theorem init_accepts_invalid_input :
    (∑ y, badRowChain.P 0 y) ≠ 1 ∧
      RawAssetPriceModel.init (1/2) badRowChain 2 =
        { beta := 1/2, mc := badRowChain, gamma := 2 } ∧
      (RawAssetPriceModel.init (1/2) badRowChain 2).dimN = 2 ∧
      (RawAssetPriceModel.init (1/2) badShapeChain 2).dimN = 2 := by
  refine ⟨?_, rfl, rfl, rfl⟩
  rw [Fin.sum_univ_two]
  norm_num [badRowChain]

/-- C3, amended: construction never fails.  For every discount factor,
every raw chain of any shape and every risk aversion, the constructor
returns normally, stores exactly the given primitives and derives n as the
number of rows of the transition array. -/
theorem init_stores_unconditionally {rows cols len : ℕ} (beta : ℚ)
    (mc : RawMarkovChain rows cols len) (gamma : ℤ) :
    RawAssetPriceModel.init beta mc gamma =
        { beta := beta, mc := mc, gamma := gamma } ∧
      (RawAssetPriceModel.init beta mc gamma).dimN = rows :=
  ⟨rfl, rfl⟩

/-- C5: consol_price is linear in the coupon: doubling the coupon doubles
the price vector, exactly in rational arithmetic. -/
theorem consol_price_linear {n : ℕ} (apm : AssetPriceModel n)
    (_hv : apm.Valid) (c : ℚ) :
    consol_price apm (2 * c) = (2 : ℚ) • consol_price apm c := by
  unfold consol_price
  have h : (fun _ : Fin n => 2 * c) = (2 : ℚ) • fun _ : Fin n => c := by
    funext i
    simp [Pi.smul_apply]
  rw [h, Matrix.mulVec_smul, solve_smul, smul_comm]

/-- Witness for C5 at the concrete one state model m1 with coupon one. -/
theorem consol_price_linear_witness :
    m1.Valid ∧ consol_price m1 (2 * 1) = (2 : ℚ) • consol_price m1 1 :=
  ⟨m1_valid, consol_price_linear m1 m1_valid 1⟩

/-- C7: the P_tilde attribute is the matrix whose (x, y) entry is
P x y times the state value of y raised to (1 - gamma); each access
recomputes it as a pure function of the stored primitives. -/
theorem P_tilde_entry {n : ℕ} (apm : AssetPriceModel n) (x y : Fin n) :
    apm.P_tilde x y =
      apm.mc.P x y * apm.mc.state_values y ^ (1 - apm.gamma) :=
  rfl

/-- Helper for C9: the state sequences of the Python and Cython loops agree
at every index. -/
theorem compute_series_x_eq_cy (U : ℕ → ℚ) :
    ∀ t, compute_series_x U t = compute_series_cy_x U t
  | 0 => rfl
  | t + 1 => by
    simp only [compute_series_x, compute_series_cy_x,
      compute_series_x_eq_cy U t, pLow, qHigh]

/-- C9: on a common draw sequence U the three simulator implementations
produce the same state sequence of length n. -/
theorem compute_series_equiv (n : ℕ) (U : ℕ → ℚ) (_hn : 1 ≤ n) :
    compute_series n U = compute_series_numba n U ∧
      compute_series_numba n U = compute_series_cy n U := by
  refine ⟨rfl, ?_⟩
  unfold compute_series_numba jit compute_series compute_series_cy
  rw [show compute_series_x U = compute_series_cy_x U from
    funext (compute_series_x_eq_cy U)]

/-- Witness for C9 at n = 3 with constant draws one half. -/
theorem compute_series_equiv_witness :
    1 ≤ 3 ∧ (compute_series 3 (fun _ => 1/2) = compute_series_numba 3 (fun _ => 1/2) ∧
      compute_series_numba 3 (fun _ => 1/2) = compute_series_cy 3 (fun _ => 1/2)) :=
  ⟨by decide, compute_series_equiv 3 (fun _ => 1/2) (by decide)⟩

/- Concrete evaluation of tree_price on the two five state models, through
explicit inverse certificates. -/

theorem one5 : (1 : Matrix (Fin 5) (Fin 5) ℚ) =
    !![1,0,0,0,0; 0,1,0,0,0; 0,0,1,0,0; 0,0,0,1,0; 0,0,0,0,1] := by
  ext i j
  fin_cases i <;> fin_cases j <;>
    simp [Matrix.one_apply, Matrix.vecHead, Matrix.vecTail, Function.comp]

theorem apm5_Pt : (apm5).P_tilde = !![19/21, 1/82, 1/80, 1/78, 1/76;
    1/84, 38/41, 1/80, 1/78, 1/76;
    1/84, 1/82, 19/20, 1/78, 1/76;
    1/84, 1/82, 1/80, 38/39, 1/76;
    1/84, 1/82, 1/80, 1/78, 1] := by
  ext i j
  fin_cases i <;> fin_cases j <;>
    norm_num [apm5, AssetPriceModel.P_tilde, broadcastMul, Fin.ext_iff]

theorem apm5_A : (1 : Matrix (Fin 5) (Fin 5) ℚ) - (apm5).beta • (apm5).P_tilde =
    !![157/1050, (-47/4100), (-47/4000), (-47/3900), (-47/3800);
    (-47/4200), 132/1025, (-47/4000), (-47/3900), (-47/3800);
    (-47/4200), (-47/4100), 107/1000, (-47/3900), (-47/3800);
    (-47/4200), (-47/4100), (-47/4000), 82/975, (-47/3800);
    (-47/4200), (-47/4100), (-47/4000), (-47/3900), 3/50] := by
  rw [apm5_Pt, one5]
  ext i j
  fin_cases i <;> fin_cases j <;>
    norm_num [Matrix.sub_apply, Matrix.smul_apply, apm5, Matrix.vecHead, Matrix.vecTail]

theorem apm5_hB : (!![6600307/919558, 1031415/919558, 1248555/919558, 1581503/919558, 2156595/919558;
    2013715/1839116, 15477623/1839116, 2861595/1839116, 3624687/1839116, 4942755/1839116;
    594550/459779, 697950/459779, 4716710/459779, 1070190/459779, 1459350/459779;
    2937077/1839116, 3447873/1839116, 4173741/1839116, 24413545/1839116, 7209189/1839116;
    1951205/919558, 2290545/919558, 2772765/919558, 3512169/919558, 17495941/919558] : Matrix (Fin 5) (Fin 5) ℚ) *
      (1 - (apm5).beta • (apm5).P_tilde) = 1 := by
  rw [apm5_A, one5]
  ext i j
  fin_cases i <;> fin_cases j <;>
    norm_num [Matrix.mul_apply, Fin.sum_univ_five, Matrix.vecHead, Matrix.vecTail]

theorem apm5_hx : (1 - (apm5).beta • (apm5).P_tilde).mulVec
      ![6222775/459779, 14404925/919558, 8594650/459779, 21458675/919558, 14416525/459779] =
    (apm5).P_tilde.mulVec fun _ => 1 := by
  rw [apm5_A, apm5_Pt]
  funext i
  fin_cases i <;>
    norm_num [Matrix.mulVec, Matrix.dotProduct, Fin.sum_univ_five, Matrix.vecHead, Matrix.vecTail]

theorem apm5_tree_price : tree_price (apm5) =
    ![11698817/919558, 27081259/1839116, 8078971/459779, 40342309/1839116, 27103067/919558] := by
  unfold tree_price
  rw [solve_eq_of_leftInverse apm5_hB apm5_hx]
  funext i
  fin_cases i <;>
    norm_num [apm5, Pi.smul_apply, Matrix.vecHead, Matrix.vecTail]

theorem apm5spec_Pt : (apm5spec).P_tilde = !![25/28, 1/82, 1/80, 1/78, 1/76;
    1/84, 75/82, 1/80, 1/78, 1/76;
    1/84, 1/82, 15/16, 1/78, 1/76;
    1/84, 1/82, 1/80, 25/26, 1/76;
    1/84, 1/82, 1/80, 1/78, 75/76] := by
  ext i j
  fin_cases i <;> fin_cases j <;>
    norm_num [apm5spec, AssetPriceModel.P_tilde, broadcastMul, Fin.ext_iff]

theorem apm5spec_A : (1 : Matrix (Fin 5) (Fin 5) ℚ) - (apm5spec).beta • (apm5spec).P_tilde =
    !![9/56, (-47/4100), (-47/4000), (-47/3900), (-47/3800);
    (-47/4200), 23/164, (-47/4000), (-47/3900), (-47/3800);
    (-47/4200), (-47/4100), 19/160, (-47/3900), (-47/3800);
    (-47/4200), (-47/4100), (-47/4000), 5/52, (-47/3800);
    (-47/4200), (-47/4100), (-47/4000), (-47/3900), 11/152] := by
  rw [apm5spec_Pt, one5]
  ext i j
  fin_cases i <;> fin_cases j <;>
    norm_num [Matrix.sub_apply, Matrix.smul_apply, apm5spec, Matrix.vecHead, Matrix.vecTail]

theorem apm5spec_hB : (!![6683144903400/1019263811467, 875116739700/1019263811467, 1042763624700/1019263811467, 1289864009700/1019263811467, 1690442894700/1019263811467;
    854280626850/1019263811467, 7710244758200/1019263811467, 1181591211850/1019263811467, 1461589129350/1019263811467, 1915498796850/1019263811467;
    993108214000/1019263811467, 1152771914000/1019263811467, 9184060108000/1019263811467, 1699109314000/1019263811467, 2226783014000/1019263811467;
    1197730866150/1019263811467, 1390292098650/1019263811467, 1656631581150/1019263811467, 11468934952800/1019263811467, 2685595296150/1019263811467;
    1529448333300/1019263811467, 1775340348300/1019263811467, 2115443863300/1019263811467, 2616733878300/1019263811467, 15457963292600/1019263811467] : Matrix (Fin 5) (Fin 5) ℚ) *
      (1 - (apm5spec).beta • (apm5spec).P_tilde) = 1 := by
  rw [apm5spec_A, one5]
  ext i j
  fin_cases i <;> fin_cases j <;>
    norm_num [Matrix.mul_apply, Fin.sum_univ_five, Matrix.vecHead, Matrix.vecTail]

theorem apm5spec_hx : (1 - (apm5spec).beta • (apm5spec).P_tilde).mulVec
      ![11236242936950/1019263811467, 12876532671950/1019263811467, 15145285906950/1019263811467, 18489277641950/1019263811467, 23910282876950/1019263811467] =
    (apm5spec).P_tilde.mulVec fun _ => 1 := by
  rw [apm5spec_A, apm5spec_Pt]
  funext i
  fin_cases i <;>
    norm_num [Matrix.mulVec, Matrix.dotProduct, Fin.sum_univ_five, Matrix.vecHead, Matrix.vecTail]

theorem apm5spec_tree_price : tree_price (apm5spec) =
    ![10562068360733/1019263811467, 12103940711633/1019263811467, 14236568752533/1019263811467, 17379920983433/1019263811467, 22475665904333/1019263811467] := by
  unfold tree_price
  rw [solve_eq_of_leftInverse apm5spec_hB apm5spec_hx]
  funext i
  fin_cases i <;>
    norm_num [apm5spec, Pi.smul_apply, Matrix.vecHead, Matrix.vecTail]

/-- C2, counterexample: on the model with diagonal 0.9375 that the claim
describes, tree_price is not within 0.001 of the quoted values; at state 0
it returns about 10.362 rather than 12.722. -/
theorem tree_price_spec_matrix_misses :
    ¬ ∀ i, |tree_price apm5spec i - tpTargets i| < 1/1000 := by
  intro h
  have h0 := h 0
  rw [apm5spec_tree_price] at h0
  rw [abs_lt] at h0
  norm_num [tpTargets] at h0

/-- C2, amended: on the matrix the notebook actually builds, whose diagonal
is 0.95 = 0.0125 + (0.95 - 0.0125), tree_price is within 0.001 of the
quoted values 12.722, 14.725, 17.571, 21.936, 29.474 in every state. -/
theorem tree_price_worked_example :
    ∀ i, |tree_price apm5 i - tpTargets i| < 1/1000 := by
  intro i
  rw [apm5_tree_price, abs_lt]
  fin_cases i <;>
    constructor <;>
    norm_num [tpTargets, Matrix.vecHead, Matrix.vecTail]

/- Concrete facts about the call_option loop on the one state model m1 with
coupon 1, strike 2 and tolerance 1 / 100000000: the consol price is the
constant vector 1, the exercise value is negative, and the loop exits at
its very first pass with error zero. -/

theorem m1_Pcheck : m1.P_check = !![1] := by
  ext i j
  fin_cases i <;> fin_cases j <;>
    norm_num [m1, AssetPriceModel.P_check, broadcastMul]

theorem m1_Acheck : (1 : Matrix (Fin 1) (Fin 1) ℚ) - m1.beta • m1.P_check = !![1/2] := by
  rw [m1_Pcheck]
  ext i j
  fin_cases i <;> fin_cases j <;>
    norm_num [Matrix.sub_apply, Matrix.smul_apply, Matrix.one_apply, m1]

theorem m1_consol : consol_price m1 1 = fun _ => 1 := by
  have hB : (!![2] : Matrix (Fin 1) (Fin 1) ℚ) * (1 - m1.beta • m1.P_check) = 1 := by
    rw [m1_Acheck]
    ext i j
    fin_cases i
    fin_cases j
    norm_num [Matrix.mul_apply, Fin.sum_univ_one, Matrix.one_apply]
  have hx : (1 - m1.beta • m1.P_check).mulVec (fun _ => (2 : ℚ)) =
      m1.P_check.mulVec fun _ => 1 := by
    rw [m1_Acheck, m1_Pcheck]
    funext i
    fin_cases i
    norm_num [Matrix.mulVec, Matrix.dotProduct, Fin.sum_univ_one]
  unfold consol_price
  rw [solve_eq_of_leftInverse hB hx]
  funext i
  norm_num [m1, Pi.smul_apply]

theorem m1_iter1 : optionIter m1 1 2 1 = fun _ => 0 := by
  funext i
  show max (m1.beta * m1.P_check.mulVec (optionIter m1 1 2 0) i)
      (consol_price m1 1 i - 2) = 0
  rw [m1_consol, m1_Pcheck]
  show max (m1.beta * (!![1].mulVec fun _ => 0) i) ((1 : ℚ) - 2) = 0
  fin_cases i
  norm_num [Matrix.mulVec, Matrix.dotProduct, Fin.sum_univ_one, max_def]

theorem m1_error0 : optionError m1 1 2 0 = 0 := by
  unfold optionError
  rw [show (0 + 1 : ℕ) = 1 from rfl, m1_iter1]
  refine le_antisymm (amaxAbs_le le_rfl fun i => ?_) (amaxAbs_nonneg _)
  show |optionIter m1 1 2 0 i - 0| ≤ 0
  norm_num [optionIter]

theorem m1_stops : stopsAt m1 1 2 (1/100000000) 0 :=
  ⟨by rw [m1_error0]; norm_num, fun t ht => absurd ht (Nat.not_lt_zero t)⟩

/-- C4: for a valid model with nonnegative transition probabilities and
strictly positive state values, the infinite horizon vector returned by
call_option dominates the immediate exercise payoff and is nonnegative in
every state. -/
theorem call_option_dominates {n : ℕ} (apm : AssetPriceModel n)
    (hv : apm.Valid) (hP : ∀ x y, 0 ≤ apm.mc.P x y)
    (hs : ∀ y, 0 < apm.mc.state_values y) (zeta p_s epsilon : ℚ)
    (T : Finset ℕ) (N : ℕ) (_hN : stopsAt apm zeta p_s epsilon N) (i : Fin n) :
    consol_price apm zeta i - p_s ≤ (call_option apm zeta p_s T N).1 i ∧
      0 ≤ (call_option apm zeta p_s T N).1 i := by
  have hPc : ∀ x y, 0 ≤ apm.P_check x y := fun x y =>
    mul_nonneg (hP x y) (zpow_pos (hs y) _).le
  have hiter : ∀ t j, 0 ≤ optionIter apm zeta p_s t j := by
    intro t
    induction t with
    | zero => exact fun j => le_rfl
    | succ t ih =>
      intro j
      refine le_trans ?_ (le_max_left _ _)
      exact mul_nonneg hv.1.le (Finset.sum_nonneg fun k _ =>
        mul_nonneg (hPc j k) (ih k))
  constructor
  · exact le_max_right _ _
  · exact hiter (N + 1) i

/-- Witness for C4 at the one state model m1 with coupon 1, strike 2,
tolerance 1 / 100000000, empty horizon set and exit pass 0. -/
theorem call_option_dominates_witness :
    m1.Valid ∧ (∀ x y, 0 ≤ m1.mc.P x y) ∧ (∀ y, 0 < m1.mc.state_values y) ∧
      stopsAt m1 1 2 (1/100000000) 0 ∧
      (consol_price m1 1 0 - 2 ≤ (call_option m1 1 2 ∅ 0).1 0 ∧
        0 ≤ (call_option m1 1 2 ∅ 0).1 0) :=
  have hP : ∀ x y, 0 ≤ m1.mc.P x y := by
    intro x y
    fin_cases x
    fin_cases y
    norm_num [m1]
  have hs : ∀ y, 0 < m1.mc.state_values y := by
    intro y
    fin_cases y
    norm_num [m1]
  ⟨m1_valid, hP, hs, m1_stops,
    call_option_dominates m1 m1_valid hP hs 1 2 (1/100000000) ∅ 0 m1_stops 0⟩

/-- C8: for a valid model, whenever the requested horizon set contains 0,
the dictionary returned by call_option has an entry at key 0 and its value
is the all zero vector, the state of w_bar before any update. -/
theorem call_option_records_zero {n : ℕ} (apm : AssetPriceModel n)
    (_hv : apm.Valid) (zeta p_s epsilon : ℚ) (T : Finset ℕ) (hT : 0 ∈ T)
    (N : ℕ) (_hN : stopsAt apm zeta p_s epsilon N) :
    (call_option apm zeta p_s T N).2 0 = some (fun _ => 0) := by
  show (if 0 ∈ T ∧ 0 ≤ N then some (optionIter apm zeta p_s 0) else none) = _
  rw [if_pos ⟨hT, Nat.zero_le N⟩]
  rfl

/-- Witness for C8 at the one state model m1 with horizon set containing 0. -/
theorem call_option_records_zero_witness :
    m1.Valid ∧ (0 ∈ ({0} : Finset ℕ)) ∧ stopsAt m1 1 2 (1/100000000) 0 ∧
      (call_option m1 1 2 {0} 0).2 0 = some (fun _ => 0) :=
  ⟨m1_valid, by decide, m1_stops,
    call_option_records_zero m1 m1_valid 1 2 (1/100000000) {0} (by decide) 0 m1_stops⟩

/-- C10: a requested horizon at least as large as the number of passes the
loop performs is silently absent from the returned dictionary: the lookup
returns none and no error of any kind occurs. -/
theorem call_option_horizon_absent {n : ℕ} (apm : AssetPriceModel n)
    (_hv : apm.Valid) (zeta p_s epsilon : ℚ) (T : Finset ℕ) (N : ℕ)
    (_hN : stopsAt apm zeta p_s epsilon N) (t : ℕ) (_ht : t ∈ T)
    (hlate : N + 1 ≤ t) :
    (call_option apm zeta p_s T N).2 t = none := by
  show (if t ∈ T ∧ t ≤ N then some (optionIter apm zeta p_s t) else none) = none
  rw [if_neg]
  rintro ⟨-, hle⟩
  omega

/-- Witness for C10 at the one state model m1: the loop exits at pass 0,
so the requested horizon 5 is absent even though the horizon set is the
nonempty set containing exactly 5. -/
theorem call_option_horizon_absent_witness :
    m1.Valid ∧ stopsAt m1 1 2 (1/100000000) 0 ∧ (5 ∈ ({5} : Finset ℕ)) ∧
      0 + 1 ≤ 5 ∧ (call_option m1 1 2 {5} 0).2 5 = none :=
  ⟨m1_valid, m1_stops, by decide, by decide,
    call_option_horizon_absent m1 m1_valid 1 2 (1/100000000) {5} 0 m1_stops 5
      (by decide) (by decide)⟩

/- Termination analysis of the call_option loop: the update error contracts
by the factor beta times the maximum absolute row sum of P_check. -/

theorem optionError_contract {n : ℕ} (apm : AssetPriceModel n)
    (zeta p_s : ℚ) (hb : 0 ≤ apm.beta) (t : ℕ) :
    optionError apm zeta p_s (t + 1) ≤
      (apm.beta * maxAbsRowSum apm.P_check) * optionError apm zeta p_s t := by
  unfold optionError
  refine amaxAbs_le
    (mul_nonneg (mul_nonneg hb (maxAbsRowSum_nonneg _)) (amaxAbs_nonneg _))
    fun i => ?_
  have hd : optionIter apm zeta p_s (t + 1) i - optionIter apm zeta p_s (t + 1 + 1) i =
      max (apm.beta * apm.P_check.mulVec (optionIter apm zeta p_s t) i)
        (consol_price apm zeta i - p_s) -
      max (apm.beta * apm.P_check.mulVec (optionIter apm zeta p_s (t + 1)) i)
        (consol_price apm zeta i - p_s) := rfl
  rw [hd]
  refine le_trans (abs_max_sub_max_le_abs _ _ _) ?_
  have h2 : apm.beta * apm.P_check.mulVec (optionIter apm zeta p_s t) i -
      apm.beta * apm.P_check.mulVec (optionIter apm zeta p_s (t + 1)) i =
      apm.beta * ∑ j, apm.P_check i j *
        (optionIter apm zeta p_s t j - optionIter apm zeta p_s (t + 1) j) := by
    rw [← mul_sub]
    congr 1
    unfold Matrix.mulVec Matrix.dotProduct
    rw [← Finset.sum_sub_distrib]
    exact Finset.sum_congr rfl fun j _ => (mul_sub _ _ _).symm
  rw [h2, abs_mul, abs_of_nonneg hb, mul_assoc]
  refine mul_le_mul_of_nonneg_left ?_ hb
  refine le_trans (Finset.abs_sum_le_sum_abs _ _) ?_
  have h3 : ∀ j : Fin n, |apm.P_check i j *
      (optionIter apm zeta p_s t j - optionIter apm zeta p_s (t + 1) j)| ≤
      |apm.P_check i j| * amaxAbs fun k =>
        optionIter apm zeta p_s t k - optionIter apm zeta p_s (t + 1) k := by
    intro j
    rw [abs_mul]
    exact mul_le_mul_of_nonneg_left
      (le_amaxAbs (fun k => optionIter apm zeta p_s t k -
        optionIter apm zeta p_s (t + 1) k) j) (abs_nonneg _)
  refine le_trans (Finset.sum_le_sum fun j _ => h3 j) ?_
  rw [← Finset.sum_mul]
  exact mul_le_mul_of_nonneg_right (rowSum_le_maxAbsRowSum _ i) (amaxAbs_nonneg _)

theorem optionError_geom {n : ℕ} (apm : AssetPriceModel n) (zeta p_s : ℚ)
    (hb : 0 ≤ apm.beta) (t : ℕ) :
    optionError apm zeta p_s t ≤
      (apm.beta * maxAbsRowSum apm.P_check) ^ t * optionError apm zeta p_s 0 := by
  induction t with
  | zero => rw [pow_zero, one_mul]
  | succ t ih =>
    refine le_trans (optionError_contract apm zeta p_s hb t) ?_
    have hk : 0 ≤ apm.beta * maxAbsRowSum apm.P_check :=
      mul_nonneg hb (maxAbsRowSum_nonneg _)
    calc (apm.beta * maxAbsRowSum apm.P_check) * optionError apm zeta p_s t ≤
        (apm.beta * maxAbsRowSum apm.P_check) *
          ((apm.beta * maxAbsRowSum apm.P_check) ^ t * optionError apm zeta p_s 0) :=
          mul_le_mul_of_nonneg_left ih hk
    _ = (apm.beta * maxAbsRowSum apm.P_check) ^ (t + 1) * optionError apm zeta p_s 0 := by
          ring

/-- C6, amended: for a valid model, the spectral radius condition is
replaced by the sup norm operator bound beta * maxAbsRowSum (P_check) < 1.
Under that bound the Bellman update is a contraction in the maximum norm,
so for every positive tolerance the loop exits after finitely many passes:
some first pass N has error within epsilon. -/
theorem call_option_terminates {n : ℕ} (apm : AssetPriceModel n)
    (hv : apm.Valid) (hK : apm.beta * maxAbsRowSum apm.P_check < 1)
    (zeta p_s epsilon : ℚ) (he : 0 < epsilon) :
    ∃ N, stopsAt apm zeta p_s epsilon N := by
  classical
  have hterm : ∃ t, optionError apm zeta p_s t ≤ epsilon := by
    by_cases h0 : optionError apm zeta p_s 0 ≤ epsilon
    · exact ⟨0, h0⟩
    · push_neg at h0
      have hE0 : 0 < optionError apm zeta p_s 0 := lt_trans he h0
      obtain ⟨t, ht⟩ := exists_pow_lt_of_lt_one (div_pos he hE0) hK
      refine ⟨t, le_trans (optionError_geom apm zeta p_s hv.1.le t) ?_⟩
      have h2 : (apm.beta * maxAbsRowSum apm.P_check) ^ t *
          optionError apm zeta p_s 0 <
          (epsilon / optionError apm zeta p_s 0) * optionError apm zeta p_s 0 :=
        mul_lt_mul_of_pos_right ht hE0
      rw [div_mul_cancel₀ _ hE0.ne'] at h2
      exact h2.le
  refine ⟨Nat.find hterm, Nat.find_spec hterm, fun s hs => ?_⟩
  exact lt_of_not_le (Nat.find_min hterm hs)

/-- Helper for the witness of the amended C6: the operator norm of the
pricing kernel of m1 is one. -/
theorem m1_maxRS : maxAbsRowSum m1.P_check = 1 := by
  have h : ∀ i : Fin 1, (∑ j, |m1.P_check i j|) = 1 := by
    intro i
    rw [m1_Pcheck]
    fin_cases i
    norm_num [Fin.sum_univ_one]
  refine le_antisymm ?_ ?_
  · unfold maxAbsRowSum
    rw [Finset.fold_max_le]
    exact ⟨by norm_num, fun i _ => le_of_eq (h i)⟩
  · calc (1 : ℚ) = ∑ j, |m1.P_check 0 j| := (h 0).symm
    _ ≤ _ := rowSum_le_maxAbsRowSum _ 0

/-- Witness for the amended C6 at the one state model m1 with tolerance
one half. -/
theorem call_option_terminates_witness :
    m1.Valid ∧ m1.beta * maxAbsRowSum m1.P_check < 1 ∧ (0 : ℚ) < 1/2 ∧
      ∃ N, stopsAt m1 1 2 (1/2) N :=
  have hK : m1.beta * maxAbsRowSum m1.P_check < 1 := by
    rw [m1_maxRS]
    norm_num [m1]
  ⟨m1_valid, hK, by norm_num,
    call_option_terminates m1 m1_valid hK 1 2 (1/2) (by norm_num)⟩

/- The two state model cexM: concrete evaluation of its pricing kernel,
consol price and call_option iterates.  The iterates enter an exact two
cycle, so the loop never meets its tolerance test. -/

theorem cexM_valid : cexM.Valid := by
  refine ⟨by norm_num [cexM], by norm_num [cexM], fun x y => ?_, fun x => ?_⟩
  · fin_cases x <;> fin_cases y <;>
      norm_num [cexM, Matrix.vecHead, Matrix.vecTail]
  · fin_cases x <;>
      rw [Fin.sum_univ_two] <;>
      norm_num [cexM, Matrix.vecHead, Matrix.vecTail]

theorem cex_Pcheck : cexM.P_check = !![(-3), 1; (-9/2), 1/2] := by
  ext i j
  fin_cases i <;> fin_cases j <;>
    norm_num [cexM, AssetPriceModel.P_check, broadcastMul,
      Matrix.vecHead, Matrix.vecTail]

theorem cex_Acheck :
    (1 : Matrix (Fin 2) (Fin 2) ℚ) - cexM.beta • cexM.P_check =
      !![5/2, (-1/2); 9/4, 3/4] := by
  rw [cex_Pcheck]
  ext i j
  fin_cases i <;> fin_cases j <;>
    norm_num [Matrix.sub_apply, Matrix.smul_apply, Matrix.one_apply, cexM,
      Matrix.vecHead, Matrix.vecTail]

theorem cex_consol : consol_price cexM cexZeta = ![77/4, 121/4] := by
  have hB : (!![1/4, 1/6; (-3/4), 5/6] : Matrix (Fin 2) (Fin 2) ℚ) *
      (1 - cexM.beta • cexM.P_check) = 1 := by
    rw [cex_Acheck]
    ext i j
    fin_cases i <;> fin_cases j <;>
      norm_num [Matrix.mul_apply, Fin.sum_univ_two, Matrix.one_apply,
        Matrix.vecHead, Matrix.vecTail]
  have hx : (1 - cexM.beta • cexM.P_check).mulVec ![77/2, 121/2] =
      cexM.P_check.mulVec fun _ => cexZeta := by
    rw [cex_Acheck, cex_Pcheck]
    funext i
    fin_cases i <;>
      norm_num [Matrix.mulVec, Matrix.dotProduct, Fin.sum_univ_two, cexZeta,
        Matrix.vecHead, Matrix.vecTail]
  unfold consol_price
  rw [solve_eq_of_leftInverse hB hx]
  funext i
  fin_cases i <;>
    norm_num [cexM, Pi.smul_apply, Matrix.vecHead, Matrix.vecTail]

theorem cex_iter1 : optionIter cexM cexZeta cexStrike 1 = cexLo := by
  funext i
  show max (cexM.beta * cexM.P_check.mulVec (optionIter cexM cexZeta cexStrike 0) i)
      (consol_price cexM cexZeta i - cexStrike) = cexLo i
  rw [cex_consol, cex_Pcheck]
  fin_cases i <;>
    norm_num [cexM, cexLo, cexStrike, optionIter, Matrix.mulVec,
      Matrix.dotProduct, Fin.sum_univ_two, max_def,
      Matrix.vecHead, Matrix.vecTail]

theorem cex_step_lo (t : ℕ)
    (h : optionIter cexM cexZeta cexStrike t = cexLo) :
    optionIter cexM cexZeta cexStrike (t + 1) = cexHi := by
  funext i
  show max (cexM.beta * cexM.P_check.mulVec (optionIter cexM cexZeta cexStrike t) i)
      (consol_price cexM cexZeta i - cexStrike) = cexHi i
  rw [h, cex_consol, cex_Pcheck]
  fin_cases i <;>
    norm_num [cexM, cexLo, cexHi, cexStrike, Matrix.mulVec, Matrix.dotProduct,
      Fin.sum_univ_two, max_def, Matrix.vecHead, Matrix.vecTail]

theorem cex_step_hi (t : ℕ)
    (h : optionIter cexM cexZeta cexStrike t = cexHi) :
    optionIter cexM cexZeta cexStrike (t + 1) = cexLo := by
  funext i
  show max (cexM.beta * cexM.P_check.mulVec (optionIter cexM cexZeta cexStrike t) i)
      (consol_price cexM cexZeta i - cexStrike) = cexLo i
  rw [h, cex_consol, cex_Pcheck]
  fin_cases i <;>
    norm_num [cexM, cexLo, cexHi, cexStrike, Matrix.mulVec, Matrix.dotProduct,
      Fin.sum_univ_two, max_def, Matrix.vecHead, Matrix.vecTail]

theorem cex_alternate : ∀ t : ℕ,
    (optionIter cexM cexZeta cexStrike (t + 1) = cexLo ∧
      optionIter cexM cexZeta cexStrike (t + 2) = cexHi) ∨
    (optionIter cexM cexZeta cexStrike (t + 1) = cexHi ∧
      optionIter cexM cexZeta cexStrike (t + 2) = cexLo) := by
  intro t
  induction t with
  | zero => exact Or.inl ⟨cex_iter1, cex_step_lo 1 cex_iter1⟩
  | succ t ih =>
    rcases ih with ⟨h1, h2⟩ | ⟨h1, h2⟩
    · exact Or.inr ⟨h2, cex_step_hi (t + 2) h2⟩
    · exact Or.inl ⟨h2, cex_step_lo (t + 2) h2⟩

theorem cex_error_lower (t : ℕ) :
    1 ≤ optionError cexM cexZeta cexStrike t := by
  unfold optionError
  refine le_trans ?_ (le_amaxAbs _ 0)
  cases t with
  | zero =>
    rw [show (0 + 1 : ℕ) = 1 from rfl, cex_iter1]
    norm_num [optionIter, cexLo, Matrix.vecHead, Matrix.vecTail]
  | succ t =>
    rw [show t + 1 + 1 = t + 2 from rfl]
    rcases cex_alternate t with ⟨h1, h2⟩ | ⟨h1, h2⟩ <;>
      rw [h1, h2] <;>
      norm_num [cexLo, cexHi, Matrix.vecHead, Matrix.vecTail] <;>
      rw [abs_of_nonneg (by norm_num : (0:ℚ) ≤ 7/2)] <;>
      norm_num

theorem cex_no_stop :
    ¬ ∃ N, stopsAt cexM cexZeta cexStrike (1/100000000) N := by
  rintro ⟨N, hN, -⟩
  have h := le_trans (cex_error_lower N) hN
  norm_num at h

/- The spectral radius of the pricing kernel of cexM: its eigenvalues are
the two conjugate roots of z^2 + (5/2) z + 3, of modulus the square root of
three, so beta times the spectral radius is below one. -/

theorem cex_PcheckC :
    (cexM.P_check).map (fun a => (a : ℂ)) = !![(-3 : ℂ), 1; (-9/2), 1/2] := by
  rw [cex_Pcheck]
  ext i j
  fin_cases i <;> fin_cases j <;>
    simp [Matrix.map_apply, Matrix.vecHead, Matrix.vecTail]

theorem cex_spectrum_bound :
    ∀ z ∈ spectrum ℂ ((cexM.P_check).map fun a => (a : ℂ)),
      (cexM.beta : ℝ) * Complex.abs z < 1 := by
  intro z hz
  rw [cex_PcheckC, spectrum.mem_iff] at hz
  have hbeta : (cexM.beta : ℝ) = 1/2 := by
    norm_num [cexM]
  rw [hbeta]
  have hdet : ((algebraMap ℂ (Matrix (Fin 2) (Fin 2) ℂ)) z -
      !![(-3 : ℂ), 1; (-9/2), 1/2]).det = z^2 + (5/2)*z + 3 := by
    rw [Algebra.algebraMap_eq_smul_one]
    have hm : (z • (1 : Matrix (Fin 2) (Fin 2) ℂ) - !![(-3 : ℂ), 1; (-9/2), 1/2]) =
        !![z+3, -1; 9/2, z-1/2] := by
      ext i j
      fin_cases i <;> fin_cases j <;>
        simp [Matrix.smul_apply, Matrix.one_apply, Matrix.sub_apply,
          Matrix.vecHead, Matrix.vecTail] <;> ring
    rw [hm, Matrix.det_fin_two_of]
    ring
  have hroot : z^2 + (5/2)*z + 3 = 0 := by
    by_contra hne
    exact hz ((Matrix.isUnit_iff_isUnit_det _).mpr
      (isUnit_iff_ne_zero.mpr (by rw [hdet]; exact hne)))
  set s : ℝ := Real.sqrt 23 / 4 with hs
  have hs2 : s * s = 23 / 16 := by
    rw [hs, div_mul_div_comm, Real.mul_self_sqrt (by norm_num : (0:ℝ) ≤ 23)]
    norm_num
  set r : ℂ := ⟨-5/4, s⟩ with hr
  set rb : ℂ := ⟨-5/4, -s⟩ with hrb
  have hsum : r + rb = -(5/2 : ℂ) := by
    rw [hr, hrb]
    apply Complex.ext <;> simp <;> norm_num
  have hprod : r * rb = 3 := by
    rw [hr, hrb]
    apply Complex.ext <;>
      simp [Complex.mul_re, Complex.mul_im] <;> nlinarith [hs2]
  have hfac : (z - r) * (z - rb) = 0 := by
    have hexp : (z - r) * (z - rb) = z^2 - (r + rb)*z + r*rb := by ring
    rw [hexp, hsum, hprod]
    calc z^2 - -(5/2 : ℂ)*z + 3 = z^2 + (5/2)*z + 3 := by ring
    _ = 0 := hroot
  have habs : Complex.abs z = Real.sqrt 3 := by
    rcases mul_eq_zero.mp hfac with h | h
    · rw [sub_eq_zero.mp h, Complex.abs_apply, Complex.normSq_mk]
      congr 1
      nlinarith [hs2]
    · rw [sub_eq_zero.mp h, Complex.abs_apply, Complex.normSq_mk]
      congr 1
      nlinarith [hs2]
  rw [habs]
  have h3 : Real.sqrt 3 < 2 := by
    rw [Real.sqrt_lt' (by norm_num : (0:ℝ) < 2)]
    norm_num
  linarith

/-- C6, counterexample: a valid two state model with discount factor one
half on which beta times the spectral radius of P_check is below one (every
eigenvalue has modulus the square root of three), yet with coupon -33 and
strike 73/4 the call_option loop never terminates at tolerance
1 / 100000000: from pass one on, w_bar alternates between the two vectors
(1, 12) and (9/2, 12), and every pass has error at least one.  The Bellman
update is not a contraction here because a negative state value gives
P_check columns of mixed signs. -/
theorem call_option_spectral_radius_cex :
    cexM.Valid ∧ (0 : ℚ) < 1/100000000 ∧
      (∀ z ∈ spectrum ℂ ((cexM.P_check).map fun a => (a : ℂ)),
        (cexM.beta : ℝ) * Complex.abs z < 1) ∧
      ¬ ∃ N, stopsAt cexM cexZeta cexStrike (1/100000000) N :=
  ⟨cexM_valid, by norm_num, cex_spectrum_bound, cex_no_stop⟩
